import Mathlib

/-!
Verification of the lag-compensation test client (`client.py`) against its
specification.  The client's state lives in module-level globals; we model it
as an explicit `ClientState` record, and the `on_message` websocket callback
as a state-transition function.  Python integers become `Int`; Python's
floor division `//` becomes `Int.fdiv`; a Python exception escaping part of
the handler body is modelled with `Except`, carrying the partially-mutated
state at the raise point, and the surrounding `try/except` catches it.
-/

namespace Client

/-- Constant `POSITION_HISTORY_SIZE = 100` (client.py line 17). -/
def POSITION_HISTORY_SIZE : Nat := 100

/-- Constant `MAX_SIMULATED_LATENCY = 500` (client.py line 16). -/
def MAX_SIMULATED_LATENCY : Int := 500

/-- Constant `HIT_MARKER_TIME = 500` (client.py line 15). -/
def HIT_MARKER_TIME : Int := 500

/-- Constant `HIT_POINT_TIME = 3000` (client.py line 18). -/
def HIT_POINT_TIME : Int := 3000

/-- A buffered target position sample: the `pos_data` dict built in the
`position` branch of `on_message` (client.py lines 66-70). -/
structure TimedPosition where
  x : Int
  y : Int
  timestamp : Int
deriving Repr, DecidableEq

/-- A point dict with `x`/`y` keys (`last_hit_point`, `last_hit_target_pos`). -/
structure Point where
  x : Int
  y : Int
deriving Repr, DecidableEq

/-- The parsed payload of a `hit_result` message as stored in
`last_hit_result`.  Fields are `Option` because the incoming JSON dict may
lack any of them; reading a missing key raises `KeyError` in Python. -/
structure HitResultData where
  hit : Option Bool
  hit_x : Option Int
  hit_y : Option Int
  target_x : Option Int
  target_y : Option Int
deriving Repr, DecidableEq

/-- The module-level mutable globals of client.py (lines 38-49) that the
network-receive path touches. -/
structure ClientState where
  position_history : List TimedPosition
  last_hit_result : Option HitResultData
  hit_marker_start_time : Int
  hit_point_start_time : Int
  last_hit_point : Option Point
  last_hit_target_pos : Option Point
  server_offset : Int
  measured_latency : Int
deriving Repr, DecidableEq

/-- The initial values of the globals (client.py lines 38-49). -/
def initState : ClientState :=
  { position_history := []
    last_hit_result := none
    hit_marker_start_time := 0
    hit_point_start_time := 0
    last_hit_point := none
    last_hit_target_pos := none
    server_offset := 0
    measured_latency := 0 }

/-- A parsed incoming message, after `json.loads` and the `type` dispatch.
`malformed` stands for any message on which `json.loads` itself raises, or
whose `type` key is missing (both raise before any state is touched);
`other` is an unknown `type` value, which matches no branch. -/
inductive Msg where
  | malformed : Msg
  | position (x y : Option Int) : Msg
  | hit_result (hit : Option Bool)
      (hit_x hit_y target_x target_y : Option Int) : Msg
  | sync_response (clientTime serverRecvTime serverSendTime : Option Int) : Msg
  | other : Msg
deriving Repr, DecidableEq

/-- The `position` branch buffer maintenance (client.py lines 71-75):
`position_history.append(pos_data)` followed by `pop(0)` when the length
exceeds `POSITION_HISTORY_SIZE`. -/
def appendPosition (history : List TimedPosition) (p : TimedPosition) :
    List TimedPosition :=
  if (history ++ [p]).length > POSITION_HISTORY_SIZE then
    (history ++ [p]).drop 1
  else history ++ [p]

/-- The body of the `try` block in `on_message` (client.py lines 62-107).
`now` is `int(time.time() * 1000 - client_start_time)` at the moment the
message is processed, `ticks` is `pygame.time.get_ticks()`.  A result
`.error s` means a `KeyError` escaped the body leaving the globals in the
partially-mutated state `s`; `.ok s` is normal completion. -/
def on_message_body (s : ClientState) (msg : Msg) (now ticks : Int) :
    Except ClientState ClientState :=
  match msg with
  | .malformed => .error s
  | .other => .ok s
  | .position ox oy =>
      match ox with
      | none => .error s
      | some x =>
          match oy with
          | none => .error s
          | some y =>
              .ok { s with position_history :=
                      appendPosition s.position_history ⟨x, y, now⟩ }
  | .hit_result ohit ohx ohy otx oty =>
      let s1 := { s with
                  last_hit_result := some ⟨ohit, ohx, ohy, otx, oty⟩,
                  hit_marker_start_time := ticks }
      match ohit with
      | none => .error s1
      | some false => .ok s1
      | some true =>
          let s2 := { s1 with hit_point_start_time := ticks }
          match ohx with
          | none => .error s2
          | some hx =>
              match ohy with
              | none => .error s2
              | some hy =>
                  let s3 := { s2 with last_hit_point := some ⟨hx, hy⟩ }
                  match otx with
                  | none => .error s3
                  | some tx =>
                      match oty with
                      | none => .error s3
                      | some ty =>
                          .ok { s3 with
                                last_hit_target_pos := some ⟨tx, ty⟩ }
  | .sync_response oc osr oss =>
      match oc with
      | none => .error s
      | some t0 =>
          match osr with
          | none => .error s
          | some t1 =>
              match oss with
              | none => .error s
              | some _t2 =>
                  let t3 := now
                  let rtt := t3 - t0
                  let lat := Int.fdiv rtt 2
                  .ok { s with
                        measured_latency := lat,
                        server_offset := t1 - (t0 + lat) }

/-- The `on_message` callback (client.py lines 59-109): the `try` body with
the `except` clause that logs and swallows any exception, leaving the
globals as they were at the raise point. -/
def on_message (s : ClientState) (msg : Msg) (now ticks : Int) : ClientState :=
  match on_message_body s msg now ticks with
  | .ok s' => s'
  | .error s' => s'

/-- The visibility test of `draw_hit_marker` (client.py lines 139-144): the
marker is drawn when `hit_result` is truthy and
`current_time - hit_marker_start_time <= HIT_MARKER_TIME`. -/
def marker_visible (last_hit_result : Option HitResultData)
    (hit_marker_start_time now : Int) : Bool :=
  match last_hit_result with
  | none => false
  | some _ => decide (now - hit_marker_start_time ≤ HIT_MARKER_TIME)

/-- The outgoing `shoot` message dict built by `send_shoot`
(client.py lines 126-133). -/
structure ShootData where
  timestamp : Int
  x : Int
  y : Int
  offset : Int
  compensation_enabled : Bool
deriving Repr, DecidableEq

/-- `send_shoot` (client.py lines 123-133) as a pure composer: `now` is
`current_time`, and the globals it reads (`simulated_latency`,
`server_offset`, `compensation_enabled`) are passed in. -/
def send_shoot (now x y server_offset simulated_latency : Int)
    (compensation_enabled : Bool) : ShootData :=
  { timestamp := now - simulated_latency
    x := x
    y := y
    offset := if compensation_enabled then server_offset else 0
    compensation_enabled := compensation_enabled }

/-- The slider handler's clamp (client.py line 402): the new
`simulated_latency` computed at line 401 is stored as
`max(0, min(value, MAX_SIMULATED_LATENCY))`. -/
def set_simulated_latency (value : Int) : Int :=
  max 0 (min value MAX_SIMULATED_LATENCY)

/-- The scan loop of `get_delayed_position` (client.py lines 329-336),
carrying `closest_pos` and `min_time_diff`.  `min_time_diff` starts at
float infinity, modelled as `none`; a finite distance, `some m`.  Any
finite `time_diff` compares below infinity, so the `none` case always takes
the update branch. -/
def scan_loop (targetTime : Int) :
    List TimedPosition → Option TimedPosition → Option Int →
    Option TimedPosition
  | [], closest, _ => closest
  | p :: rest, closest, minDiff =>
      let d := |p.timestamp - targetTime|
      match minDiff with
      | none => scan_loop targetTime rest (some p) (some d)
      | some m =>
          if d < m then scan_loop targetTime rest (some p) (some d)
          else scan_loop targetTime rest closest minDiff

/-- `get_delayed_position` (client.py lines 321-338): `None` on an empty
history (`if not position_history`), otherwise the scan loop starting from
`closest_pos = None`, `min_time_diff = inf`, with
`target_time = current_time - simulated_latency`. -/
def get_delayed_position (history : List TimedPosition)
    (now simulated_latency : Int) : Option TimedPosition :=
  if history.isEmpty then none
  else scan_loop (now - simulated_latency) history none none

/-- Proof helper: the scan loop once a current best exists, represented by
the best sample alone (its distance is determined by it). -/
def bestFrom (targetTime : Int) (best : TimedPosition) :
    List TimedPosition → TimedPosition
  | [] => best
  | p :: rest =>
      if |p.timestamp - targetTime| < |best.timestamp - targetTime| then
        bestFrom targetTime p rest
      else
        bestFrom targetTime best rest

/-! ## Helper lemmas -/

/-- Python floor division by two agrees with the rational floor. -/
theorem fdiv_two_eq_floor (n : Int) : Int.fdiv n 2 = ⌊(n : ℚ) / 2⌋ := by
  rw [Int.fdiv_eq_ediv _ (by norm_num)]
  rw [show ((2 : ℚ)) = ((2 : ℕ) : ℚ) by norm_num]
  rw [Rat.floor_intCast_div_natCast]
  norm_num

/-- Folding `appendPosition` over any message sequence, starting from a
buffer within capacity, leaves exactly the last `POSITION_HISTORY_SIZE`
elements of the full append stream. -/
theorem appendPosition_foldl (xs : List TimedPosition) :
    ∀ b : List TimedPosition, b.length ≤ POSITION_HISTORY_SIZE →
      List.foldl appendPosition b xs =
        (b ++ xs).drop ((b ++ xs).length - POSITION_HISTORY_SIZE) := by
  induction xs with
  | nil =>
      intro b hb
      simp [Nat.sub_eq_zero_of_le hb]
  | cons x xs ih =>
      intro b hb
      rw [List.foldl_cons]
      by_cases hc : (b ++ [x]).length > POSITION_HISTORY_SIZE
      · have hb100 : b.length = POSITION_HISTORY_SIZE := by
          simp only [List.length_append, List.length_singleton] at hc
          omega
        have h1 : (1 : Nat) ≤ b.length := by
          rw [hb100]; decide
        have happ : appendPosition b x = (b ++ [x]).drop 1 := by
          unfold appendPosition
          rw [if_pos hc]
        have hlen : (appendPosition b x).length ≤ POSITION_HISTORY_SIZE := by
          rw [happ]
          simp only [List.length_drop, List.length_append,
            List.length_singleton]
          omega
        rw [ih _ hlen, happ]
        have e : (b ++ [x]).drop 1 ++ xs = (b ++ x :: xs).drop 1 := by
          rw [List.drop_append_of_le_length h1,
            List.drop_append_of_le_length (by simpa using h1)]
          simp
        rw [e, List.drop_drop]
        congr 1
        simp only [List.length_drop, List.length_append,
          List.length_cons, List.length_singleton]
        omega
      · have happ : appendPosition b x = b ++ [x] := by
          unfold appendPosition
          rw [if_neg hc]
        have hlen : (appendPosition b x).length ≤ POSITION_HISTORY_SIZE := by
          rw [happ]; omega
        rw [ih _ hlen, happ]
        simp [List.append_assoc]

/-- The scan loop with a current best equals `bestFrom` on that best. -/
theorem scan_loop_eq_bestFrom (T : Int) :
    ∀ (l : List TimedPosition) (p : TimedPosition),
      scan_loop T l (some p) (some |p.timestamp - T|) =
        some (bestFrom T p l) := by
  intro l
  induction l with
  | nil => intro p; rfl
  | cons q rest ih =>
      intro p
      by_cases h : |q.timestamp - T| < |p.timestamp - T|
      · simp [scan_loop, bestFrom, h, ih]
      · simp [scan_loop, bestFrom, h, ih]

/-- `bestFrom` splits its input around the returned sample: everything
before it is strictly farther from the target time, and nothing anywhere is
strictly closer. -/
theorem bestFrom_decomp (T : Int) :
    ∀ (l : List TimedPosition) (p : TimedPosition),
      ∃ pre post,
        p :: l = pre ++ bestFrom T p l :: post ∧
        (∀ q ∈ p :: l,
          |(bestFrom T p l).timestamp - T| ≤ |q.timestamp - T|) ∧
        (∀ q ∈ pre,
          |(bestFrom T p l).timestamp - T| < |q.timestamp - T|) := by
  intro l
  induction l with
  | nil =>
      intro p
      refine ⟨[], [], rfl, ?_, ?_⟩
      · intro q hq
        rw [List.mem_singleton] at hq
        subst hq
        exact le_refl _
      · intro q hq
        exact absurd hq (List.not_mem_nil q)
  | cons q rest ih =>
      intro p
      by_cases hlt : |q.timestamp - T| < |p.timestamp - T|
      · have hbf : bestFrom T p (q :: rest) = bestFrom T q rest := by
          simp [bestFrom, hlt]
        obtain ⟨pre, post, hdec, hmin, hstrict⟩ := ih q
        have hrq : |(bestFrom T q rest).timestamp - T| ≤ |q.timestamp - T| :=
          hmin q (List.mem_cons_self q rest)
        refine ⟨p :: pre, post, ?_, ?_, ?_⟩
        · rw [hbf, List.cons_append, ← hdec]
        · intro a ha
          rw [hbf]
          rcases List.mem_cons.mp ha with rfl | ha2
          · exact le_of_lt (lt_of_le_of_lt hrq hlt)
          · exact hmin a ha2
        · intro a ha
          rw [hbf]
          rcases List.mem_cons.mp ha with rfl | ha2
          · exact lt_of_le_of_lt hrq hlt
          · exact hstrict a ha2
      · have hbf : bestFrom T p (q :: rest) = bestFrom T p rest := by
          simp [bestFrom, hlt]
        have hpq : |p.timestamp - T| ≤ |q.timestamp - T| := le_of_not_lt hlt
        obtain ⟨pre, post, hdec, hmin, hstrict⟩ := ih p
        cases pre with
        | nil =>
            have hp : p = bestFrom T p rest := (List.cons_eq_cons.mp hdec).1
            have hpost : rest = post := (List.cons_eq_cons.mp hdec).2
            refine ⟨[], q :: post, ?_, ?_, ?_⟩
            · rw [hbf, List.nil_append, ← hp, hpost]
            · intro a ha
              rw [hbf]
              rcases List.mem_cons.mp ha with rfl | ha2
              · exact hmin a (List.mem_cons_self a rest)
              · rcases List.mem_cons.mp ha2 with rfl | ha3
                · rw [← hp]; exact hpq
                · exact hmin a (List.mem_cons_of_mem p ha3)
            · intro a ha
              exact absurd ha (List.not_mem_nil a)
        | cons c pre2 =>
            have hc : c = p := ((List.cons_eq_cons.mp hdec).1).symm
            have hrest : rest = pre2 ++ bestFrom T p rest :: post :=
              (List.cons_eq_cons.mp hdec).2
            have hstrictp : |(bestFrom T p rest).timestamp - T| <
                |p.timestamp - T| := by
              have := hstrict c (List.mem_cons_self c pre2)
              rwa [hc] at this
            refine ⟨p :: q :: pre2, post, ?_, ?_, ?_⟩
            · rw [hbf]
              simp only [List.cons_append]
              rw [← hrest]
            · intro a ha
              rw [hbf]
              rcases List.mem_cons.mp ha with rfl | ha2
              · exact hmin a (List.mem_cons_self a rest)
              · rcases List.mem_cons.mp ha2 with rfl | ha3
                · exact le_trans (le_of_lt hstrictp) hpq
                · exact hmin a (List.mem_cons_of_mem p ha3)
            · intro a ha
              rw [hbf]
              rcases List.mem_cons.mp ha with rfl | ha2
              · exact hstrictp
              · rcases List.mem_cons.mp ha2 with rfl | ha3
                · exact lt_of_lt_of_le hstrictp hpq
                · exact hstrict a (List.mem_cons_of_mem c ha3)

/-! ## Claim theorems -/

/-- C4: `send_shoot` stamps the event `now - simulated_latency`, sends the
clock-offset estimate when compensation is enabled and `0` when it is
disabled, and carries the compensation flag verbatim; in particular a
nonzero offset estimate with compensation disabled sends offset `0`. -/
theorem send_shoot_compose :
    ∀ (now x y off sim : Int) (comp : Bool),
      (send_shoot now x y off sim comp).timestamp = now - sim ∧
      (send_shoot now x y off sim comp).offset =
        (if comp then off else 0) ∧
      (send_shoot now x y off sim comp).compensation_enabled = comp ∧
      (send_shoot 5000 10 20 77 0 false).offset = 0 := by
  intro now x y off sim comp
  exact ⟨rfl, rfl, rfl, rfl⟩

/-- C7: the stored simulated latency is always in
`[0, MAX_SIMULATED_LATENCY]`; setting `-5` stores `0` and setting
`MAX + 100` stores `MAX`. -/
theorem simulated_latency_clamped :
    ∀ v : Int,
      0 ≤ set_simulated_latency v ∧
      set_simulated_latency v ≤ MAX_SIMULATED_LATENCY ∧
      set_simulated_latency (-5) = 0 ∧
      set_simulated_latency (MAX_SIMULATED_LATENCY + 100) =
        MAX_SIMULATED_LATENCY := by
  intro v
  exact ⟨le_max_left _ _, max_le (by decide) (min_le_right _ _),
    by decide, by decide⟩

/-- C9: after any `hit_result` message is processed at tick time `t`, the
hit marker is visible at time `n` iff `n - t ≤ HIT_MARKER_TIME`; recording
at `t = 1000` leaves it visible at `1499` and invisible at `1501`. -/
theorem hit_marker_visibility :
    ∀ (s : ClientState) (ohit : Option Bool) (ohx ohy otx oty : Option Int)
      (now t n : Int),
      (marker_visible
          (on_message s (.hit_result ohit ohx ohy otx oty) now t).last_hit_result
          (on_message s (.hit_result ohit ohx ohy otx oty) now t).hit_marker_start_time
          n = true ↔ n - t ≤ HIT_MARKER_TIME) ∧
      marker_visible
        (on_message initState
          (.hit_result (some true) none none none none) 1000 1000).last_hit_result
        (on_message initState
          (.hit_result (some true) none none none none) 1000 1000).hit_marker_start_time
        1499 = true ∧
      marker_visible
        (on_message initState
          (.hit_result (some true) none none none none) 1000 1000).last_hit_result
        (on_message initState
          (.hit_result (some true) none none none none) 1000 1000).hit_marker_start_time
        1501 = false := by
  intro s ohit ohx ohy otx oty now t n
  refine ⟨?_, by decide, by decide⟩
  cases ohit with
  | none => simp [on_message, on_message_body, marker_visible]
  | some b =>
      cases b <;> cases ohx <;> cases ohy <;> cases otx <;> cases oty <;>
        simp [on_message, on_message_body, marker_visible]

/-- C2: processing a well-formed `sync_response` (send time `t0`, server
receive time `t1`, receive time `t3 = now`) stores
`measured_latency = ⌊(t3 - t0) / 2⌋` and
`server_offset = t1 - (t0 + measured_latency)`; for
`t0 = 1000`, `t1 = 1050`, `t3 = 1100` this is latency `50`, offset `0`. -/
theorem sync_response_latency_offset :
    ∀ (s : ClientState) (t0 t1 t2 now ticks : Int),
      (on_message s (.sync_response (some t0) (some t1) (some t2))
          now ticks).measured_latency = ⌊((now - t0 : Int) : ℚ) / 2⌋ ∧
      (on_message s (.sync_response (some t0) (some t1) (some t2))
          now ticks).server_offset =
        t1 - (t0 +
          (on_message s (.sync_response (some t0) (some t1) (some t2))
            now ticks).measured_latency) ∧
      (on_message initState
          (.sync_response (some 1000) (some 1050) (some 1050))
          1100 0).measured_latency = 50 ∧
      (on_message initState
          (.sync_response (some 1000) (some 1050) (some 1050))
          1100 0).server_offset = 0 := by
  intro s t0 t1 t2 now ticks
  refine ⟨?_, rfl, by decide, by decide⟩
  show Int.fdiv (now - t0) 2 = _
  exact fdiv_two_eq_floor _

/-- C3: the code stores the raw `rtt // 2` with no clamp, so a probe whose
timestamps make the formula negative stores a negative `measured_latency`:
a `sync_response` with `t0 = 1100`, `t1 = 1000` received at `t3 = 1000`
stores `measured_latency = -50 < 0`, contradicting the specified clamp. -/
theorem sync_response_negative_latency_stored :
    (on_message initState
        (.sync_response (some 1100) (some 1000) (some 1000))
        1000 0).measured_latency = -50 ∧
    (on_message initState
        (.sync_response (some 1100) (some 1000) (some 1000))
        1000 0).measured_latency < 0 := by
  decide

/-- C10: a `hit_result` message with `hit = false` updates exactly
`last_hit_result` and `hit_marker_start_time`; the kill-cam state
(`hit_point_start_time`, `last_hit_point`, `last_hit_target_pos`) and all
other globals are unchanged. -/
theorem hit_result_miss_frame_effect :
    ∀ (s : ClientState) (ohx ohy otx oty : Option Int) (now t : Int),
      on_message s (.hit_result (some false) ohx ohy otx oty) now t =
        { s with
          last_hit_result := some ⟨some false, ohx, ohy, otx, oty⟩,
          hit_marker_start_time := t } := by
  intro s ohx ohy otx oty now t
  rfl

/-- C6 counterexample: a `hit_result` with `hit = true` but missing
coordinate fields is not dropped without mutation — the handler has already
stored the hit result and both start times when the `KeyError` fires. -/
theorem on_message_hit_result_mutates :
    ¬ on_message initState
        (.hit_result (some true) none none none none) 0 42 = initState := by
  decide

/-- C6 amended: an unparseable message mutates no state; any exception
raised in the body is caught by the handler, which returns the state as
mutated so far (never raising out); a `hit_result` with `hit = true` and
missing coordinates keeps the partial mutations of `last_hit_result`,
`hit_marker_start_time` and `hit_point_start_time`, leaving the kill-cam
coordinates unchanged. -/
theorem on_message_error_handling :
    ∀ (s : ClientState) (now t : Int),
      on_message s .malformed now t = s ∧
      (∀ msg : Msg,
        on_message s msg now t =
          (match on_message_body s msg now t with
           | .ok r => r
           | .error r => r)) ∧
      on_message s (.hit_result (some true) none none none none) now t =
        { s with
          last_hit_result := some ⟨some true, none, none, none, none⟩,
          hit_marker_start_time := t,
          hit_point_start_time := t } := by
  intro s now t
  exact ⟨rfl, fun _ => rfl, rfl⟩

/-- C5: any sequence of appends through the `position` branch keeps at most
`POSITION_HISTORY_SIZE` samples, and the buffer is exactly the most recent
`POSITION_HISTORY_SIZE` appends in arrival order, oldest evicted first. -/
theorem position_history_fifo :
    ∀ xs : List TimedPosition,
      (List.foldl appendPosition [] xs).length ≤ POSITION_HISTORY_SIZE ∧
      List.foldl appendPosition [] xs =
        xs.drop (xs.length - POSITION_HISTORY_SIZE) := by
  intro xs
  have h := appendPosition_foldl xs [] (by decide)
  simp only [List.nil_append] at h
  refine ⟨?_, h⟩
  rw [h]
  simp only [List.length_drop]
  omega

/-- C8: `get_delayed_position` returns `none` exactly when the position
history is empty, for every `now` and `simulated_latency`. -/
theorem get_delayed_position_none_iff_empty :
    ∀ (history : List TimedPosition) (now sim : Int),
      get_delayed_position history now sim = none ↔ history = [] := by
  intro history now sim
  cases history with
  | nil => simp [get_delayed_position]
  | cons p rest =>
      constructor
      · intro h
        have e : get_delayed_position (p :: rest) now sim =
            some (bestFrom (now - sim) p rest) :=
          scan_loop_eq_bestFrom (now - sim) rest p
        rw [e] at h
        exact Option.noConfusion h
      · intro h
        exact absurd h (List.cons_ne_nil p rest)

/-- C1: on a non-empty history, `get_delayed_position` returns the sample
minimizing the distance of its timestamp to `now - simulated_latency`, and
an exact tie goes to the earliest sample in iteration order: the history
splits as `pre ++ r :: post` with every sample of `pre` strictly farther.
On `[t=100, t=300]` with target time `200` the tie yields `t=100`; on
`[t=100, t=200, t=300]` with target time `180` it yields `t=200`. -/
theorem get_delayed_position_nearest_first :
    (∀ (history : List TimedPosition) (now sim : Int),
      history ≠ [] →
      ∃ r pre post,
        get_delayed_position history now sim = some r ∧
        history = pre ++ r :: post ∧
        (∀ q ∈ history,
          |r.timestamp - (now - sim)| ≤ |q.timestamp - (now - sim)|) ∧
        (∀ q ∈ pre,
          |r.timestamp - (now - sim)| < |q.timestamp - (now - sim)|)) ∧
    get_delayed_position [⟨0, 0, 100⟩, ⟨0, 0, 300⟩] 200 0 =
      some ⟨0, 0, 100⟩ ∧
    get_delayed_position [⟨0, 0, 100⟩, ⟨0, 0, 200⟩, ⟨0, 0, 300⟩] 180 0 =
      some ⟨0, 0, 200⟩ := by
  refine ⟨?_, by decide, by decide⟩
  intro history now sim hne
  cases history with
  | nil => exact absurd rfl hne
  | cons p rest =>
      obtain ⟨pre, post, hdec, hmin, hstrict⟩ :=
        bestFrom_decomp (now - sim) rest p
      exact ⟨bestFrom (now - sim) p rest, pre, post,
        scan_loop_eq_bestFrom (now - sim) rest p, hdec, hmin, hstrict⟩

/-- C1 witness: the general statement applied to the tie-break buffer
`[t=100, t=300]` at target time `200`. -/
theorem get_delayed_position_nearest_first_witness :
    (([⟨0, 0, 100⟩, ⟨0, 0, 300⟩] : List TimedPosition) ≠ []) ∧
    (∃ r pre post,
      get_delayed_position [⟨0, 0, 100⟩, ⟨0, 0, 300⟩] 200 0 = some r ∧
      ([⟨0, 0, 100⟩, ⟨0, 0, 300⟩] : List TimedPosition) =
        pre ++ r :: post ∧
      (∀ q ∈ ([⟨0, 0, 100⟩, ⟨0, 0, 300⟩] : List TimedPosition),
        |r.timestamp - (200 - 0)| ≤ |q.timestamp - (200 - 0)|) ∧
      (∀ q ∈ pre,
        |r.timestamp - (200 - 0)| < |q.timestamp - (200 - 0)|)) :=
  ⟨by decide,
    get_delayed_position_nearest_first.1 [⟨0, 0, 100⟩, ⟨0, 0, 300⟩] 200 0
      (by decide)⟩

end Client
